import Mathlib

/-!
Verification of the gap-detection fusion engine of
`src/services/ocr/ocr_server.py` (WebTestFlow OCR service).

The Python code is shallowly embedded: image-derived real-valued fields
(the per-column edge-magnitude profile, the per-column colour-distance
profile, the contours extracted by OpenCV from the Canny edge image) are
inputs of the embedded functions, and the arithmetic performed on them by
the Python code is transcribed over `ℚ` (Python floats are modelled as
exact rationals).  Python `int(x)` truncates toward zero and is modelled
by `pyInt`; Python `range(a, b)` by `pyRange`; Python list slices
`l[a:b]` (which clamp out-of-range bounds) by `pySlice`.  A Python
exception inside an analyzer is modelled by an explicit failure flag /
`Option` result, matching the `try/except` structure of the source.
-/

/-- Python `int(x)` on a float: truncation toward zero. -/
def pyInt (q : ℚ) : ℤ := if 0 ≤ q then ⌊q⌋ else ⌈q⌉

/-- Python `range(a, b)` for natural bounds (empty when `b ≤ a`). -/
def pyRange (a b : ℕ) : List ℕ := List.range' a (b - a)

/-- Python slice `l[a:b]` for non-negative bounds: out-of-range bounds clamp. -/
def pySlice (l : List ℚ) (a b : ℕ) : List ℚ := (l.drop a).take (b - a)

/-- `np.mean` of a list of rationals (0 on the empty list; every use in the
source is on a non-empty slice). -/
def listMean (l : List ℚ) : ℚ := l.sum / l.length

/-- `np.var` (population variance). -/
def listVar (l : List ℚ) : ℚ := listMean (l.map fun x => (x - listMean l) ^ 2)

/-- `np.max` of a list (0 on the empty list; guarded by `len(window) > 2`
in the source). -/
def listMax (l : List ℚ) : ℚ := l.foldl max (l.headD 0)

/-- `np.mean` of a list of integers, as a rational. -/
def listMeanZ (l : List ℤ) : ℚ := ((l.map fun p => (p : ℚ)).sum) / l.length

/-- Insertion into an ascending-sorted list of integers. -/
def insertAsc (x : ℤ) : List ℤ → List ℤ
  | [] => [x]
  | y :: ys => if x ≤ y then x :: y :: ys else y :: insertAsc x ys

/-- Ascending insertion sort, used to model the sort inside `np.median`. -/
def sortAsc : List ℤ → List ℤ
  | [] => []
  | x :: xs => insertAsc x (sortAsc xs)

/-- `np.median` of a list of integers: middle element of the sorted list for
odd length, mean of the two middle elements for even length. -/
def npMedian (l : List ℤ) : ℚ :=
  let s := sortAsc l
  let n := s.length
  if n = 0 then 0
  else if n % 2 = 1 then ((s.getD (n / 2) 0 : ℤ) : ℚ)
  else (((s.getD (n / 2 - 1) 0 : ℤ) : ℚ) + ((s.getD (n / 2) 0 : ℤ) : ℚ)) / 2

/-- Stable descending insertion (by second component) — equal scores keep
their original relative order, as Python's stable `list.sort` does. -/
def insertDesc (p : ℕ × ℚ) : List (ℕ × ℚ) → List (ℕ × ℚ)
  | [] => [p]
  | q :: qs => if p.2 > q.2 then p :: q :: qs else q :: insertDesc p qs

/-- `candidates.sort(key=score, reverse=True)` (stable). -/
def sortDescBySnd : List (ℕ × ℚ) → List (ℕ × ℚ)
  | [] => []
  | p :: ps => insertDesc p (sortDescBySnd ps)

/-- The four gap analyzers of the source (the Chinese method strings
`边缘检测`, `颜色分析`, `拼图模板匹配`, `轮廓分析` used as dictionary keys). -/
inductive AnalyzerKind where
  | edgeDetection
  | colorAnalysis
  | puzzleTemplate
  | contourAnalysis
deriving DecidableEq, BEq, Repr

/-- One analyzer result tuple.  A 2-tuple `(method, pos)` of the source is
a candidate with `verified = false`; the 3-tuple `(method, pos, verified)`
carries the flag explicitly.  (The two shapes behave identically in the
decision code: the `len == 2` template branch only sets a variable that is
never read unless a verified 3-tuple was found.) -/
structure Candidate where
  method : AnalyzerKind
  pos : ℤ
  verified : Bool
deriving DecidableEq, Repr

/-- An OpenCV external contour: `cv2.contourArea` result plus the
`cv2.boundingRect` fields `(x, y, w, h)`. -/
structure Contour where
  area : ℚ
  x : ℕ
  y : ℕ
  w : ℕ
  h : ℕ
deriving DecidableEq, Repr

/-- The branch of the decision procedure that produced the answer
(the source's `decision_method` strings, plus the zero-candidate branch). -/
inductive DecisionMethod where
  | consistencyFusion
  | balancedFusion
  | centerTemplate
  | centerColor
  | templateVerifiedAlone
  | medianProtect
  | weightedAverage
  | noCandidates
deriving DecidableEq, Repr

/-- The only request-fatal failure of the core: the background bytes do not
decode to an image (`Image.open` raises). -/
inductive DetectError where
  | decodeError
deriving DecidableEq, Repr

/-- A decoded image together with the derived fields the analyzers consume
and the outcome of the non-deterministic parts:
`edgeRows` — the grid of edge magnitudes produced by `FIND_EDGES`;
`colorProfile` — the per-column mean colour distance `col_diff`;
`contours` — the external contours of the Canny edge image;
`puzzleEdges` — the per-column sums of the Canny edge image (`col_edges`);
`stdFn` — `np.std` (square roots are irrational, so the standard
deviation used inside the colour analyzer's score is kept abstract);
`edgeCrashed`/`colorCrashed`/`puzzleCrashed` — whether a numeric/format
exception occurred inside the respective analyzer. -/
structure ImgData where
  width : ℕ
  edgeRows : List (List ℚ)
  colorProfile : List ℚ
  contours : List Contour
  puzzleEdges : List ℚ
  stdFn : List ℚ → ℚ
  edgeCrashed : Bool
  colorCrashed : Bool
  puzzleCrashed : Bool

/-- `np.sum(edge_array, axis=0)`: per-column sums of a grid of rows
(missing entries of a ragged row read as 0; the grids produced by PIL are
rectangular of row length `width`). -/
def colSums (width : ℕ) (rows : List (List ℚ)) : List ℚ :=
  (List.range width).map fun j => (rows.map fun r => r.getD j 0).sum

/-- `find_gap_with_edge_detection` (ocr_server.py lines 33–77): slide a
window of size `max(10, width//20)` over the per-column edge-intensity
profile, score `mean - 0.5*variance`, keep the first strict minimum, and
return the window centre (default `width//4`; `best_score` starts at
`float('inf')`, modelled by the `Option ℚ` accumulator). -/
def find_gap_with_edge_detection (width : ℕ) (edgeRows : List (List ℚ)) : ℤ :=
  let col_edges := colSums width edgeRows
  let window_size := max 10 (width / 20)
  let search_start := width / 10
  let search_end := width - width / 10
  (((pyRange search_start (search_end - window_size)).foldl
    (fun (acc : Option ℚ × ℕ) x =>
      let window := pySlice col_edges x (x + window_size)
      if window.length > 2 then
        let variance := listVar window
        let mean_intensity := listMean window
        let score := mean_intensity - variance * 0.5
        if (match acc.1 with | none => true | some b => decide (score < b)) then
          (some score, x + window_size / 2)
        else acc
      else acc)
    (none, width / 4)).2 : ℤ)

/-- `find_gap_with_color_analysis` (lines 83–129): slide a window of size
`max(8, width//25)` over the per-column colour-distance profile, score
`max(window) + 0.3*std(window)`, keep the first strict maximum
(`best_score` starts at `-1`), and return the window centre
(default `width//4`). -/
def find_gap_with_color_analysis (std : List ℚ → ℚ) (width : ℕ)
    (col_diff : List ℚ) : ℤ :=
  let window_size := max 8 (width / 25)
  let search_start := width / 8
  let search_end := width - width / 8
  (((pyRange search_start (search_end - window_size)).foldl
    (fun (acc : ℚ × ℕ) x =>
      let window := pySlice col_diff x (x + window_size)
      if window.length > 2 then
        let max_diff := listMax window
        let std_diff := std window
        let score := max_diff + std_diff * 0.3
        if score > acc.1 then (score, x + window_size / 2) else acc
      else acc)
    (-1, width / 4)).2 : ℤ)

/-- `find_gap_with_contour_fallback` (lines 380–416): window of size
`max(15, width//20)` over the per-column Laplacian edge-density profile,
keep the first strict minimum of the window mean.  (Defined by the source
but never invoked by `recognize_sliding`.) -/
def find_gap_with_contour_fallback (width : ℕ) (col_edges : List ℚ) : ℤ :=
  let window_size := max 15 (width / 20)
  let search_start := width / 8
  let search_end := width - width / 8
  (((pyRange search_start (search_end - window_size)).foldl
    (fun (acc : Option ℚ × ℕ) x =>
      let window_density := listMean (pySlice col_edges x (x + window_size))
      if (match acc.1 with | none => true | some b => decide (window_density < b)) then
        (some window_density, x + window_size / 2)
      else acc)
    (none, width / 4)).2 : ℤ)

/-- Aspect ratio `w / h if h > 0 else 0` of a contour's bounding box. -/
def pieceAspect (c : Contour) : ℚ := if c.h > 0 then (c.w : ℚ) / (c.h : ℚ) else 0

/-- Stage A contour selection (lines 228–241): among contours with
`area > 200` and aspect ratio strictly between 0.5 and 2.0, keep the first
strict maximum of the area (`max_area` starts at 0) and return its
horizontal centre `x + w//2`. -/
def selectPuzzlePieceX (contours : List Contour) : Option ℕ :=
  (contours.foldl
    (fun (acc : ℚ × Option ℕ) c =>
      if c.area > 200 then
        if 0.5 < pieceAspect c ∧ pieceAspect c < 2.0 ∧ c.area > acc.1 then
          (c.area, some (c.x + c.w / 2))
        else acc
      else acc)
    (0, none)).2

/-- Piece-to-gap positional inference (lines 246–263). -/
def inferGapFromPiece (width : ℕ) (px : ℕ) : ℤ :=
  if (px : ℚ) < (width : ℚ) * 0.3 then
    pyInt ((width : ℚ) * 0.6 + ((width : ℚ) * 0.3 - (px : ℚ)) * 0.8)
  else if (px : ℚ) > (width : ℚ) * 0.7 then
    pyInt ((width : ℚ) * 0.4 - ((px : ℚ) - (width : ℚ) * 0.7) * 0.8)
  else if px < width / 2 then pyInt ((width : ℚ) * 0.75)
  else pyInt ((width : ℚ) * 0.25)

/-- Stage A of `find_gap_with_puzzle_template_matching`: locate the piece,
infer the gap, and accept it only when `20 < gap_x < width - 20`
(lines 243–268); `none` means detection failed and Stage B runs. -/
def stageAGap (width : ℕ) (contours : List Contour) : Option ℤ :=
  match selectPuzzlePieceX contours with
  | none => none
  | some px =>
    let gap_x := inferGapFromPiece width px
    if 20 < gap_x ∧ gap_x < (width : ℤ) - 20 then some gap_x else none

/-- The Stage B score of one candidate window centre `x`
(lines 283–341): four window features plus a position bonus, summed. -/
def stageBScore (width : ℕ) (col_edges : List ℚ) (window_size x : ℕ) : ℚ :=
  let window_edges := pySlice col_edges (x - window_size) (x + window_size)
  let total_density := window_edges.sum
  let avg_density := total_density / ((window_size : ℚ) * 2)
  let edge_variance := listVar window_edges
  let left_boundary := listMean (pySlice col_edges (x - window_size - 5) (x - window_size + 5))
  let right_boundary := listMean (pySlice col_edges (x + window_size - 5) (min width (x + window_size + 5)))
  let boundary_strength := (left_boundary + right_boundary) / 2
  let surrounding_density :=
    ((pySlice col_edges (x - window_size * 2) (x - window_size)).sum +
      (pySlice col_edges (x + window_size) (min width (x + window_size * 2))).sum) /
      ((window_size : ℚ) * 2)
  let s1 : ℚ :=
    if avg_density < 30 then min ((30 - avg_density) * 2) 50
    else if avg_density < 60 then min ((60 - avg_density) * 1) 30
    else -20
  let s2 : ℚ := if edge_variance < 500 then min ((500 - edge_variance) * 0.1) 40 else -10
  let s3 : ℚ := if boundary_strength > 20 then min (boundary_strength * 0.5) 30 else 0
  let s4 : ℚ :=
    if surrounding_density > avg_density * 1.5 then
      min ((surrounding_density - avg_density) * 0.3) 25
    else 0
  let s5 : ℚ :=
    if (width : ℚ) * 0.15 < (x : ℚ) ∧ (x : ℚ) < (width : ℚ) * 0.85 then 20
    else if (width : ℚ) * 0.05 < (x : ℚ) ∧ (x : ℚ) < (width : ℚ) * 0.95 then 10
    else -30
  s1 + s2 + s3 + s4 + s5

/-- The Stage B candidate list `(x, score)` over
`range(window_size, width - window_size)` with
`window_size = max(20, width//20)` (lines 281–342). -/
def stageBCandidates (width : ℕ) (col_edges : List ℚ) : List (ℕ × ℚ) :=
  let window_size := max 20 (width / 20)
  (pyRange window_size (width - window_size)).map fun x =>
    (x, stageBScore width col_edges window_size x)

/-- `find_gap_with_puzzle_template_matching` (lines 205–378): Stage A,
then Stage B (sort candidates by score descending, stable; accept the best
only when its score exceeds 30), then the conservative default
`int(width * 0.3)`.  Any internal exception is caught and also yields
`int(width * 0.3)` (modelled by the `crashed` flag); the function is
total and never signals failure to its caller. -/
def find_gap_with_puzzle_template_matching (crashed : Bool) (width : ℕ)
    (contours : List Contour) (col_edges : List ℚ) : ℤ :=
  if crashed then pyInt ((width : ℚ) * 0.3)
  else
    match stageAGap width contours with
    | some gap_x => gap_x
    | none =>
      match (sortDescBySnd (stageBCandidates width col_edges)).head? with
      | some best => if best.2 > 30 then (best.1 : ℤ) else pyInt ((width : ℚ) * 0.3)
      | none => pyInt ((width : ℚ) * 0.3)

/-- The anchor scan of `recognize_sliding` (lines 722–735): the first
template candidate carrying `verified = True` with position strictly
inside `(width*0.1, width*0.9)` becomes the anchor. -/
def findVerifiedTemplate (width : ℕ) (cands : List Candidate) : Option ℤ :=
  (cands.find? fun c =>
    c.method == .puzzleTemplate && c.verified &&
      decide ((width : ℚ) * 0.1 < (c.pos : ℚ)) && decide ((c.pos : ℚ) < (width : ℚ) * 0.9)).map
    (·.pos)

/-- First colour-analysis candidate position (lines 740–744). -/
def findColorPos (cands : List Candidate) : Option ℤ :=
  (cands.find? fun c => c.method == .colorAnalysis).map (·.pos)

/-- The loop of lines 786–794: the (last) template candidate position in
the first component, the other candidates' positions in order in the
second. -/
def puzzleAndOthers (cands : List Candidate) : Option ℤ × List ℤ :=
  cands.foldl
    (fun (acc : Option ℤ × List ℤ) c =>
      if c.method == .puzzleTemplate then (some c.pos, acc.2)
      else (acc.1, acc.2 ++ [c.pos]))
    (none, [])

/-- The dynamic template weight (lines 796–806): start at 3.0; drop to 1.0
when the template position differs from the mean of the other candidates
by more than 80 px, to 1.8 when it differs by more than 50 px. -/
def dynPuzzleWeight (po : Option ℤ × List ℤ) : ℚ :=
  match po.1 with
  | none => 3
  | some puzzle_pos =>
    if po.2.isEmpty then 3
    else
      let pos_diff := |(puzzle_pos : ℚ) - listMeanZ po.2|
      if pos_diff > 80 then 1 else if pos_diff > 50 then 1.8 else 3

/-- The weight table of lines 808–813 (`weights.get(method, 1.0)` can never
fall back to the default: every method string that reaches the loop is a
key of the dictionary). -/
def baseWeight (puzzle_weight : ℚ) : AnalyzerKind → ℚ
  | .edgeDetection => 2
  | .colorAnalysis => 2.5
  | .puzzleTemplate => puzzle_weight
  | .contourAnalysis => 1.2

/-- The accumulation loop of lines 815–827:
`(weighted_sum, total_weight, positions)`. -/
def weightedAccum (puzzle_weight : ℚ) (cands : List Candidate) : ℚ × ℚ × List ℤ :=
  cands.foldl
    (fun (acc : ℚ × ℚ × List ℤ) c =>
      (acc.1 + (c.pos : ℚ) * baseWeight puzzle_weight c.method,
        acc.2.1 + baseWeight puzzle_weight c.method,
        acc.2.2 ++ [c.pos]))
    (0, 0, [])

/-- The decision procedure of `recognize_sliding` over the collected
candidate list (lines 718–855): verified-anchor cross-check against the
colour candidate, otherwise dynamic weighted voting with median
outlier-protection, otherwise the deterministic fallback
`int(width * 0.3)`. -/
def fuse (width : ℕ) (cands : List Candidate) : ℤ × DecisionMethod :=
  if cands.isEmpty then (pyInt ((width : ℚ) * 0.3), .noCandidates)
  else
    match findVerifiedTemplate width cands with
    | some template_pos =>
      match findColorPos cands with
      | some color_pos =>
        let pos_diff := |template_pos - color_pos|
        if pos_diff ≤ 20 then
          (pyInt ((template_pos : ℚ) * 0.7 + (color_pos : ℚ) * 0.3), .consistencyFusion)
        else if pos_diff ≤ 50 then
          (pyInt ((template_pos : ℚ) * 0.5 + (color_pos : ℚ) * 0.5), .balancedFusion)
        else
          let center_pos : ℤ := (width / 2 : ℕ)
          if |template_pos - center_pos| < |color_pos - center_pos| then
            (pyInt ((template_pos : ℚ) * 0.8 + (color_pos : ℚ) * 0.2), .centerTemplate)
          else
            (pyInt ((template_pos : ℚ) * 0.2 + (color_pos : ℚ) * 0.8), .centerColor)
      | none => (template_pos, .templateVerifiedAlone)
    | none =>
      let po := puzzleAndOthers cands
      let puzzle_weight := dynPuzzleWeight po
      let acc := weightedAccum puzzle_weight cands
      let weighted_avg :=
        if acc.2.1 > 0 then pyInt (acc.1 / acc.2.1) else pyInt (npMedian acc.2.2)
      let median_pos := pyInt (npMedian acc.2.2)
      if |weighted_avg - median_pos| > 60 then (median_pos, .medianProtect)
      else (weighted_avg, .weightedAverage)

/-- The candidate-collection of lines 689–716: each of the edge and colour
analyzers is wrapped in `try/except` and contributes only when it did not
raise; the template analyzer is total and always contributes.  Since
`find_gap_with_puzzle_template_matching` always returns a bare `int`
(never a tuple), the `isinstance(template_result, tuple)` test of line 708
is always false and the template candidate is appended with
`verified = False`. -/
def runAnalyzers (d : ImgData) : List Candidate :=
  (if d.edgeCrashed then []
    else [⟨.edgeDetection, find_gap_with_edge_detection d.width d.edgeRows, false⟩]) ++
  (if d.colorCrashed then []
    else [⟨.colorAnalysis, find_gap_with_color_analysis d.stdFn d.width d.colorProfile, false⟩]) ++
  [⟨.puzzleTemplate,
    find_gap_with_puzzle_template_matching d.puzzleCrashed d.width d.contours d.puzzleEdges,
    false⟩]

/-- The multi-analyzer gap-detection core on a decoded image. -/
def detectGapCore (d : ImgData) : ℤ × DecisionMethod :=
  fuse d.width (runAnalyzers d)

/-- The core entry point: image bytes either decode (`some d`) or do not
(`none`, `Image.open` raises and the error propagates); all analyzer-level
failures are swallowed inside `runAnalyzers`. -/
def detectGap (decoded : Option ImgData) : Except DetectError (ℤ × DecisionMethod) :=
  match decoded with
  | none => .error .decodeError
  | some d => .ok (detectGapCore d)

/-! ### Generic best-scan machinery

Every sliding-window loop of the source has the same shape: fold over the
window positions keeping the first strictly better score.  The shape is
captured once so the loops can be characterised against order-independent
formulations. -/

/-- `a` is a strictly smaller score than `b`. -/
def qlt (a b : ℚ) : Bool := decide (a < b)

/-- `a` is a strictly larger score than `b`. -/
def qgt (a b : ℚ) : Bool := decide (b < a)

/-- One step of a best-tracking fold whose running best starts at a real
value (`best_score = -1` in the colour analyzer, `max_area = 0` in the
contour selection).  A `none` score means the element is skipped. -/
def scanStep (better : ℚ → ℚ → Bool) (score : α → Option ℚ) (out : α → β)
    (acc : ℚ × β) (c : α) : ℚ × β :=
  match score c with
  | none => acc
  | some s => if better s acc.1 then (s, out c) else acc

/-- One step of a best-tracking fold whose running best starts at
`float('inf')` / `-float('inf')`, modelled by `none`. -/
def scanStepO (better : ℚ → ℚ → Bool) (score : α → Option ℚ) (out : α → β)
    (acc : Option ℚ × β) (c : α) : Option ℚ × β :=
  match score c with
  | none => acc
  | some s =>
    if (match acc.1 with | none => true | some b => better s b) then (some s, out c)
    else acc

/-- The first element attaining the strictly best score (later elements
replace an earlier one only when strictly better), with its score;
`none`-scored elements are skipped. -/
def firstBestRec (better : ℚ → ℚ → Bool) (score : α → Option ℚ) :
    List α → Option (α × ℚ)
  | [] => none
  | x :: xs =>
    match score x with
    | none => firstBestRec better score xs
    | some s =>
      match firstBestRec better score xs with
      | none => some (x, s)
      | some (y, sy) => if better sy s then some (y, sy) else some (x, s)

/-- Combine a list of scores with a binary `comb` (`min` or `max`). -/
def listBestQ (comb : ℚ → ℚ → ℚ) : List ℚ → Option ℚ
  | [] => none
  | x :: xs =>
    match listBestQ comb xs with
    | none => some x
    | some m => some (comb x m)

/-- The minimum of a list of rationals. -/
def listMinQ : List ℚ → Option ℚ := listBestQ min

/-- The maximum of a list of rationals. -/
def listMaxQ : List ℚ → Option ℚ := listBestQ max

/-! ### Specification-side definitions

These definitions follow the wording of the specification / claims (not
the source's loops); the claim theorems compare them with the embedded
source functions above. -/

/-- Spec side of C9: the scored windows of the edge-density analyzer, as
`(window centre, mean − 0.5·variance)` pairs over the search band. -/
def edgeScorePairs (width : ℕ) (edgeRows : List (List ℚ)) : List (ℕ × ℚ) :=
  let col_edges := colSums width edgeRows
  let window_size := max 10 (width / 20)
  (pyRange (width / 10) (width - width / 10 - window_size)).map fun x =>
    (x + window_size / 2,
      listMean (pySlice col_edges x (x + window_size)) -
        listVar (pySlice col_edges x (x + window_size)) * 0.5)

/-- Spec side of C9: the centre of the first (lowest-x) window attaining
the minimum score. -/
def edgeSpecResult (width : ℕ) (edgeRows : List (List ℚ)) : ℤ :=
  match listMinQ ((edgeScorePairs width edgeRows).map (·.2)) with
  | none => ((width / 4 : ℕ) : ℤ)
  | some m =>
    match (edgeScorePairs width edgeRows).find? fun p => decide (p.2 = m) with
    | some p => (p.1 : ℤ)
    | none => ((width / 4 : ℕ) : ℤ)

/-- A contour qualifying for Stage A selection: area above 200 px² and
aspect ratio strictly between 0.5 and 2.0 (the source's open interval). -/
def qualifiesPiece (c : Contour) : Bool :=
  decide ((200 : ℚ) < c.area) && decide ((0.5 : ℚ) < pieceAspect c) &&
    decide (pieceAspect c < 2.0)

/-- Spec side of C6 (amended): among qualifying contours take the first of
maximal area, use its horizontal centre, infer the gap and keep it only
strictly inside `(20, width−20)`. -/
def stageASpec (width : ℕ) (contours : List Contour) : Option ℤ :=
  let qualified := contours.filter qualifiesPiece
  match listMaxQ (qualified.map (·.area)) with
  | none => none
  | some bestArea =>
    match qualified.find? fun c => decide (c.area = bestArea) with
    | some c =>
      let gap_x := inferGapFromPiece width (c.x + c.w / 2)
      if 20 < gap_x ∧ gap_x < (width : ℤ) - 20 then some gap_x else none
    | none => none

/-- Claim side of C6 (as stated): identical to the source's Stage A
selection except that the aspect-ratio interval is the closed `[0.5, 2.0]`
the claim asserts. -/
def selectPuzzlePieceXClaimed (contours : List Contour) : Option ℕ :=
  (contours.foldl
    (fun (acc : ℚ × Option ℕ) c =>
      if c.area > 200 then
        if 0.5 ≤ pieceAspect c ∧ pieceAspect c ≤ 2.0 ∧ c.area > acc.1 then
          (c.area, some (c.x + c.w / 2))
        else acc
      else acc)
    (0, none)).2

/-- Claim side of C6 (as stated): Stage A with the closed aspect interval. -/
def stageAGapClaimed (width : ℕ) (contours : List Contour) : Option ℤ :=
  match selectPuzzlePieceXClaimed contours with
  | none => none
  | some px =>
    let gap_x := inferGapFromPiece width px
    if 20 < gap_x ∧ gap_x < (width : ℤ) - 20 then some gap_x else none

/-- Spec side of C5: the (last) template candidate position. -/
def specPuzzlePos (cands : List Candidate) : Option ℤ :=
  ((cands.filter fun c => c.method == .puzzleTemplate).getLast?).map (·.pos)

/-- Spec side of C5: the non-template candidate positions, in order. -/
def specOtherPositions (cands : List Candidate) : List ℤ :=
  (cands.filter fun c => !(c.method == .puzzleTemplate)).map (·.pos)

/-- Spec side of C5: the dynamic PuzzlePiece weight — 3.0, lowered to 1.0
when the template position differs from the mean of the other candidates
by more than 80 px and to 1.8 when it differs by more than 50 px. -/
def specPuzzleWeight (cands : List Candidate) : ℚ :=
  match specPuzzlePos cands with
  | none => 3
  | some p =>
    if specOtherPositions cands = [] then 3
    else if |(p : ℚ) - listMeanZ (specOtherPositions cands)| > 80 then 1
    else if |(p : ℚ) - listMeanZ (specOtherPositions cands)| > 50 then 1.8
    else 3

/-- Spec side of C5: the exact (un-truncated) weighted average of the
candidate positions under the base weights. -/
def specWeightedAverage (cands : List Candidate) : ℚ :=
  ((cands.map fun c => (c.pos : ℚ) * baseWeight (specPuzzleWeight cands) c.method).sum) /
    ((cands.map fun c => baseWeight (specPuzzleWeight cands) c.method).sum)

/-- Spec side of C5 (amended): truncated weighted average, replaced by the
truncated median when the two differ by more than 60. -/
def weightedVoteSpec (cands : List Candidate) : ℤ :=
  let weighted_avg := pyInt (specWeightedAverage cands)
  let median_pos := pyInt (npMedian (cands.map (·.pos)))
  if |weighted_avg - median_pos| > 60 then median_pos else weighted_avg

/-- The optional score of one edge-analyzer window (the `len(window) > 2`
guard of the source; skipped windows score `none`). -/
def edgeWindowScore (width : ℕ) (edgeRows : List (List ℚ)) (x : ℕ) : Option ℚ :=
  let col_edges := colSums width edgeRows
  let window_size := max 10 (width / 20)
  let window := pySlice col_edges x (x + window_size)
  if window.length > 2 then some (listMean window - listVar window * 0.5) else none

/-- The total edge-analyzer window score (spec side: windows in the search
band are always fully populated). -/
def edgeWindowScoreT (width : ℕ) (edgeRows : List (List ℚ)) (x : ℕ) : ℚ :=
  let col_edges := colSums width edgeRows
  let window_size := max 10 (width / 20)
  let window := pySlice col_edges x (x + window_size)
  listMean window - listVar window * 0.5

/-- The optional score of one colour-analyzer window (`len(window) > 2`
guard of the source). -/
def colorWindowScore (std : List ℚ → ℚ) (width : ℕ) (col_diff : List ℚ) (x : ℕ) :
    Option ℚ :=
  let window_size := max 8 (width / 25)
  let window := pySlice col_diff x (x + window_size)
  if window.length > 2 then some (listMax window + std window * 0.3) else none

/-! ### Concrete fixtures used by the claim counterexamples and witnesses -/

/-- A 60-column edge profile alternating 0 and 200: high density and high
variance everywhere, so every Stage B window scores at most 30. -/
def altProfile : List ℚ := (List.range 60).map fun i => if i % 2 = 0 then 0 else 200

/-- A decoded 60-px-wide image whose puzzle-analyzer profile is
`altProfile` and in which no analyzer raised. -/
def imgC3 : ImgData :=
  ⟨60, [], [], [], altProfile, fun _ => 0, false, false, false⟩

/-- A decoded 30-px-wide image with constant unit profiles. -/
def imgC4 : ImgData :=
  ⟨30, [List.replicate 30 1], List.replicate 30 1, [], List.replicate 30 1,
    fun _ => 0, false, false, false⟩

/-- A decoded image on which both the edge and the colour analyzer raised
(the only situation in which the specification lets ContourFallback
participate). -/
def imgC8 : ImgData := ⟨0, [], [], [], [], fun _ => 0, true, true, false⟩

/-- A 20×10 contour of area 300: aspect ratio exactly 2.0, area above
200 px². -/
def contourC6 : Contour := ⟨300, 0, 0, 20, 10⟩

/-! ### Basic lemmas -/

theorem pyInt_of_nonneg {q : ℚ} (h : 0 ≤ q) : pyInt q = ⌊q⌋ := if_pos h

theorem pyInt_nonneg {q : ℚ} (h : 0 ≤ q) : 0 ≤ pyInt q := by
  rw [pyInt_of_nonneg h]; exact Int.floor_nonneg.mpr h

theorem pyInt_lt_of_lt {q : ℚ} {z : ℤ} (h0 : 0 ≤ q) (h : q < (z : ℚ)) : pyInt q < z := by
  rw [pyInt_of_nonneg h0]; exact Int.floor_lt.mpr h

theorem pyInt_le_of_le {q : ℚ} {z : ℤ} (h0 : 0 ≤ q) (h : q ≤ (z : ℚ)) : pyInt q ≤ z := by
  rw [pyInt_of_nonneg h0]
  calc ⌊q⌋ ≤ ⌊(z : ℚ)⌋ := Int.floor_le_floor h
    _ = z := Int.floor_intCast z

theorem mem_pyRange {x a b : ℕ} : x ∈ pyRange a b ↔ a ≤ x ∧ x < a + (b - a) :=
  List.mem_range'_1

theorem length_pySlice (l : List ℚ) (a b : ℕ) :
    (pySlice l a b).length = min (b - a) (l.length - a) := by
  simp [pySlice]

theorem length_colSums (width : ℕ) (rows : List (List ℚ)) :
    (colSums width rows).length = width := by
  simp [colSums]

theorem foldl_congr_all {f g : β → α → β} :
    ∀ (l : List α) (init : β), (∀ b a, f b a = g b a) →
      l.foldl f init = l.foldl g init := by
  intro l init h
  have : f = g := funext fun b => funext fun a => h b a
  rw [this]

theorem foldl_congr_mem {f g : β → α → β} :
    ∀ (l : List α) (init : β), (∀ a ∈ l, ∀ b, f b a = g b a) →
      l.foldl f init = l.foldl g init := by
  intro l
  induction l with
  | nil => intro init _; rfl
  | cons x xs ih =>
    intro init h
    simp only [List.foldl_cons]
    rw [h x (by simp)]
    exact ih _ fun a ha b => h a (by simp [ha]) b

theorem foldl_skip_filter {p : α → Bool} {f : β → α → β}
    (hskip : ∀ b a, p a = false → f b a = b) :
    ∀ (l : List α) (init : β), l.foldl f init = (l.filter p).foldl f init := by
  intro l
  induction l with
  | nil => intro init; rfl
  | cons x xs ih =>
    intro init
    by_cases hx : p x = true
    · simp only [List.filter_cons, hx, if_true, List.foldl_cons]
      exact ih _
    · have hxf : p x = false := by simpa using hx
      simp only [List.filter_cons, hxf, Bool.false_eq_true, if_false, List.foldl_cons,
        hskip _ _ hxf]
      exact ih _

/-! ### Characterisation of the best-tracking folds -/

theorem scan_char {α β : Type} {better : ℚ → ℚ → Bool} {score : α → Option ℚ}
    {out : α → β}
    (htr : ∀ a b c, better a b = true → better b c = true → better a c = true)
    (hntr : ∀ a b c, better a b = false → better b c = false → better a c = false) :
    ∀ (l : List α) (b : ℚ) (y : β),
      l.foldl (scanStep better score out) (b, y) =
        (match firstBestRec better score l with
          | none => (b, y)
          | some (m, s) => if better s b then (s, out m) else (b, y)) := by
  intro l
  induction l with
  | nil => intro b y; rfl
  | cons x xs ih =>
    intro b y
    simp only [List.foldl_cons, firstBestRec]
    cases hsx : score x with
    | none => simp only [scanStep, hsx]; exact ih b y
    | some s =>
      simp only [scanStep, hsx]
      by_cases hb : better s b = true
      · rw [if_pos hb, ih]
        cases hr : firstBestRec better score xs with
        | none => simp [hb]
        | some p =>
          obtain ⟨m, sm⟩ := p
          by_cases h2 : better sm s = true
          · have h3 : better sm b = true := htr _ _ _ h2 hb
            simp [h2, h3]
          · have h2f : better sm s = false := by simpa using h2
            simp [h2f, hb]
      · have hbf : better s b = false := by simpa using hb
        rw [if_neg (by simp [hbf]), ih]
        cases hr : firstBestRec better score xs with
        | none => simp [hbf]
        | some p =>
          obtain ⟨m, sm⟩ := p
          by_cases h2 : better sm s = true
          · simp [h2]
          · have h2f : better sm s = false := by simpa using h2
            have h3 : better sm b = false := hntr _ _ _ h2f hbf
            simp [h2f, h3, hbf]

theorem scanO_of_scan {α β : Type} {better : ℚ → ℚ → Bool} {score : α → Option ℚ}
    {out : α → β} :
    ∀ (l : List α) (b : ℚ) (y : β),
      l.foldl (scanStepO better score out) (some b, y) =
        (some (l.foldl (scanStep better score out) (b, y)).1,
          (l.foldl (scanStep better score out) (b, y)).2) := by
  intro l
  induction l with
  | nil => intro b y; rfl
  | cons x xs ih =>
    intro b y
    simp only [List.foldl_cons]
    cases hsx : score x with
    | none => simp only [scanStepO, scanStep, hsx]; exact ih b y
    | some s =>
      simp only [scanStepO, scanStep, hsx]
      by_cases hb : better s b = true
      · simp only [hb, if_true]; exact ih s (out x)
      · have hbf : better s b = false := by simpa using hb
        simp only [hbf, Bool.false_eq_true, if_false]; exact ih b y

theorem scanO_char {α β : Type} {better : ℚ → ℚ → Bool} {score : α → Option ℚ}
    {out : α → β}
    (htr : ∀ a b c, better a b = true → better b c = true → better a c = true)
    (hntr : ∀ a b c, better a b = false → better b c = false → better a c = false) :
    ∀ (l : List α) (y : β),
      l.foldl (scanStepO better score out) (none, y) =
        (match firstBestRec better score l with
          | none => (none, y)
          | some (m, s) => (some s, out m)) := by
  intro l
  induction l with
  | nil => intro y; rfl
  | cons x xs ih =>
    intro y
    simp only [List.foldl_cons, firstBestRec]
    cases hsx : score x with
    | none => simp only [scanStepO, hsx]; exact ih y
    | some s =>
      simp only [scanStepO, hsx, if_true]
      rw [scanO_of_scan, scan_char htr hntr]
      cases hr : firstBestRec better score xs with
      | none => simp
      | some p =>
        obtain ⟨m, sm⟩ := p
        by_cases h2 : better sm s = true
        · simp [h2]
        · have h2f : better sm s = false := by simpa using h2
          simp [h2f]

theorem firstBestRec_mem {α : Type} {better : ℚ → ℚ → Bool} {score : α → Option ℚ} :
    ∀ {l : List α} {m : α} {s : ℚ}, firstBestRec better score l = some (m, s) →
      m ∈ l ∧ score m = some s := by
  intro l
  induction l with
  | nil => intro m s h; simp [firstBestRec] at h
  | cons x xs ih =>
    intro m s h
    simp only [firstBestRec] at h
    cases hsx : score x with
    | none =>
      rw [hsx] at h
      obtain ⟨h1, h2⟩ := ih h
      exact ⟨by simp [h1], h2⟩
    | some sx =>
      cases hr : firstBestRec better score xs with
      | none =>
        simp only [hsx, hr, Option.some.injEq, Prod.mk.injEq] at h
        obtain ⟨rfl, rfl⟩ := h
        exact ⟨by simp, hsx⟩
      | some p =>
        obtain ⟨y, sy⟩ := p
        by_cases h2 : better sy sx = true
        · simp only [hsx, hr, h2, if_true, Option.some.injEq, Prod.mk.injEq] at h
          obtain ⟨rfl, rfl⟩ := h
          obtain ⟨h3, h4⟩ := ih hr
          exact ⟨by simp [h3], h4⟩
        · simp only [hsx, hr, h2, if_false, Option.some.injEq, Prod.mk.injEq] at h
          obtain ⟨rfl, rfl⟩ := h
          exact ⟨by simp, hsx⟩

theorem listBestQ_eq_none {comb : ℚ → ℚ → ℚ} :
    ∀ l : List ℚ, listBestQ comb l = none ↔ l = [] := by
  intro l
  cases l with
  | nil => simp [listBestQ]
  | cons x xs =>
    simp only [listBestQ]
    cases listBestQ comb xs <;> simp

theorem listBestQ_mem {comb : ℚ → ℚ → ℚ}
    (hchoice : ∀ a b, comb a b = a ∨ comb a b = b) :
    ∀ {l : List ℚ} {m : ℚ}, listBestQ comb l = some m → m ∈ l := by
  intro l
  induction l with
  | nil => intro m h; simp [listBestQ] at h
  | cons x xs ih =>
    intro m h
    simp only [listBestQ] at h
    cases hr : listBestQ comb xs with
    | none =>
      rw [hr] at h
      cases h
      simp
    | some m2 =>
      rw [hr] at h
      cases h
      rcases hchoice x m2 with h1 | h1
      · rw [h1]; simp
      · rw [h1]
        exact List.mem_cons_of_mem x (ih hr)

theorem firstBest_bridge {α : Type} {better : ℚ → ℚ → Bool} {comb : ℚ → ℚ → ℚ}
    (f : α → ℚ)
    (hbt : ∀ a b, better b a = true → comb a b = b)
    (hbf : ∀ a b, better b a = false → comb a b = a)
    (hirr : ∀ a, better a a = false)
    (hchoice : ∀ a b, comb a b = a ∨ comb a b = b) :
    ∀ l : List α,
      firstBestRec better (fun x => some (f x)) l =
        (listBestQ comb (l.map f)).bind fun m =>
          (l.find? fun x => decide (f x = m)).map fun x => (x, m) := by
  intro l
  induction l with
  | nil => rfl
  | cons x xs ih =>
    simp only [firstBestRec, List.map_cons, listBestQ]
    cases hr : listBestQ comb (xs.map f) with
    | none =>
      have hxs : xs.map f = [] := (listBestQ_eq_none _).mp hr
      have hxs2 : xs = [] := by simpa using hxs
      subst hxs2
      simp [firstBestRec, List.find?]
    | some m =>
      rw [hr] at ih
      simp only [Option.some_bind] at ih
      have hmem : m ∈ xs.map f := listBestQ_mem hchoice hr
      have hfind : ∃ y, xs.find? (fun z => decide (f z = m)) = some y := by
        obtain ⟨y, hy, hfy⟩ := List.mem_map.mp hmem
        have : (xs.find? fun z => decide (f z = m)).isSome := by
          rw [List.find?_isSome]
          exact ⟨y, hy, by simp [hfy]⟩
        exact Option.isSome_iff_exists.mp this
      obtain ⟨y, hy⟩ := hfind
      have hfy : f y = m := by simpa using List.find?_some hy
      rw [hy] at ih
      simp only [Option.map_some'] at ih
      rw [ih]
      by_cases hb : better m (f x) = true
      · have hcomb : comb (f x) m = m := hbt _ _ hb
        have hne : (decide (f x = m)) = false := by
          simp only [decide_eq_false_iff_not]
          intro hEq
          rw [hEq, hirr m] at hb
          exact Bool.false_ne_true hb
        simp [hb, hcomb, List.find?_cons, hne, hy]
      · have hbf2 : better m (f x) = false := by simpa using hb
        have hcomb : comb (f x) m = f x := hbf _ _ hbf2
        simp [hbf2, hcomb, List.find?_cons]

theorem qlt_trans : ∀ a b c : ℚ, qlt a b = true → qlt b c = true → qlt a c = true := by
  intro a b c h1 h2
  simp only [qlt, decide_eq_true_eq] at h1 h2 ⊢
  exact lt_trans h1 h2

theorem qlt_ntrans : ∀ a b c : ℚ, qlt a b = false → qlt b c = false → qlt a c = false := by
  intro a b c h1 h2
  simp only [qlt, decide_eq_false_iff_not, not_lt] at h1 h2 ⊢
  exact le_trans h2 h1

theorem qgt_trans : ∀ a b c : ℚ, qgt a b = true → qgt b c = true → qgt a c = true := by
  intro a b c h1 h2
  simp only [qgt, decide_eq_true_eq] at h1 h2 ⊢
  exact lt_trans h2 h1

theorem qgt_ntrans : ∀ a b c : ℚ, qgt a b = false → qgt b c = false → qgt a c = false := by
  intro a b c h1 h2
  simp only [qgt, decide_eq_false_iff_not, not_lt] at h1 h2 ⊢
  exact le_trans h1 h2

theorem qlt_min_bt : ∀ a b : ℚ, qlt b a = true → min a b = b := by
  intro a b h
  simp only [qlt, decide_eq_true_eq] at h
  exact min_eq_right h.le

theorem qlt_min_bf : ∀ a b : ℚ, qlt b a = false → min a b = a := by
  intro a b h
  simp only [qlt, decide_eq_false_iff_not, not_lt] at h
  exact min_eq_left h

theorem qlt_irrefl : ∀ a : ℚ, qlt a a = false := by
  intro a; simp [qlt]

theorem qgt_max_bt : ∀ a b : ℚ, qgt b a = true → max a b = b := by
  intro a b h
  simp only [qgt, decide_eq_true_eq] at h
  exact max_eq_right h.le

theorem qgt_max_bf : ∀ a b : ℚ, qgt b a = false → max a b = a := by
  intro a b h
  simp only [qgt, decide_eq_false_iff_not, not_lt] at h
  exact max_eq_left h

theorem qgt_irrefl : ∀ a : ℚ, qgt a a = false := by
  intro a; simp [qgt]

/-- The minimum-tracking fold characterised via `listMinQ` and `find?`. -/
theorem firstBest_min {α : Type} (f : α → ℚ) (l : List α) :
    firstBestRec qlt (fun x => some (f x)) l =
      (listMinQ (l.map f)).bind fun m =>
        (l.find? fun x => decide (f x = m)).map fun x => (x, m) := by
  unfold listMinQ
  exact firstBest_bridge f qlt_min_bt qlt_min_bf qlt_irrefl min_choice l

/-- The maximum-tracking fold characterised via `listMaxQ` and `find?`. -/
theorem firstBest_max {α : Type} (f : α → ℚ) (l : List α) :
    firstBestRec qgt (fun x => some (f x)) l =
      (listMaxQ (l.map f)).bind fun m =>
        (l.find? fun x => decide (f x = m)).map fun x => (x, m) := by
  unfold listMaxQ
  exact firstBest_bridge f qgt_max_bt qgt_max_bf qgt_irrefl max_choice l

/-- The edge-analyzer loop is exactly a minimum-tracking scan over the
guarded window scores. -/
theorem edge_fold_eq (width : ℕ) (edgeRows : List (List ℚ)) :
    find_gap_with_edge_detection width edgeRows =
      ((((pyRange (width / 10) (width - width / 10 - max 10 (width / 20))).foldl
        (scanStepO qlt (edgeWindowScore width edgeRows)
          (fun x => x + max 10 (width / 20) / 2))
        (none, width / 4)).2 : ℕ) : ℤ) := by
  simp only [find_gap_with_edge_detection]
  congr 2
  apply foldl_congr_all
  intro b a
  by_cases h : (pySlice (colSums width edgeRows) a (a + max 10 (width / 20))).length > 2
  · simp only [scanStepO, edgeWindowScore, qlt, if_pos h]
  · simp only [scanStepO, edgeWindowScore, qlt, if_neg h]

/-- Inside the search band every window is fully populated (the profile
has length `width` by construction), so the guard of the source is always
taken and the optional score is total. -/
theorem edgeWindowScore_total (width : ℕ) (edgeRows : List (List ℚ)) :
    ∀ x ∈ pyRange (width / 10) (width - width / 10 - max 10 (width / 20)),
      edgeWindowScore width edgeRows x = some (edgeWindowScoreT width edgeRows x) := by
  intro x hx
  obtain ⟨h1, h2⟩ := mem_pyRange.mp hx
  have h10 : 10 ≤ max 10 (width / 20) := le_max_left _ _
  have h20 : max 10 (width / 20) = 10 ∨ max 10 (width / 20) = width / 20 :=
    max_choice _ _
  have hlen : (pySlice (colSums width edgeRows) x (x + max 10 (width / 20))).length > 2 := by
    rw [length_pySlice, length_colSums]
    omega
  simp only [edgeWindowScore, edgeWindowScoreT, if_pos hlen]

/-- C9, proved: the edge-analyzer fold equals its argmin specification. -/
theorem edge_scan_eq_spec (width : ℕ) (edgeRows : List (List ℚ)) :
    find_gap_with_edge_detection width edgeRows = edgeSpecResult width edgeRows := by
  have hcongr :
      (pyRange (width / 10) (width - width / 10 - max 10 (width / 20))).foldl
        (scanStepO qlt (edgeWindowScore width edgeRows)
          (fun x => x + max 10 (width / 20) / 2)) (none, width / 4) =
      (pyRange (width / 10) (width - width / 10 - max 10 (width / 20))).foldl
        (scanStepO qlt (fun x => some (edgeWindowScoreT width edgeRows x))
          (fun x => x + max 10 (width / 20) / 2)) (none, width / 4) := by
    apply foldl_congr_mem
    intro a ha b
    simp only [scanStepO, edgeWindowScore_total width edgeRows a ha]
  have hm : ((edgeScorePairs width edgeRows).map (·.2)) =
      (pyRange (width / 10) (width - width / 10 - max 10 (width / 20))).map
        (edgeWindowScoreT width edgeRows) := by
    simp only [edgeScorePairs, List.map_map]
    congr 1
  have hf : ∀ m : ℚ,
      (edgeScorePairs width edgeRows).find? (fun p => decide (p.2 = m)) =
        ((pyRange (width / 10) (width - width / 10 - max 10 (width / 20))).find?
          (fun x => decide (edgeWindowScoreT width edgeRows x = m))).map
          (fun x => (x + max 10 (width / 20) / 2, edgeWindowScoreT width edgeRows x)) := by
    intro m
    simp only [edgeScorePairs, List.find?_map]
    rfl
  rw [edge_fold_eq, hcongr, scanO_char qlt_trans qlt_ntrans, firstBest_min]
  simp only [edgeSpecResult, hm]
  cases hmin : listMinQ
      ((pyRange (width / 10) (width - width / 10 - max 10 (width / 20))).map
        (edgeWindowScoreT width edgeRows)) with
  | none => rfl
  | some m =>
    simp only [Option.some_bind, hf m]
    cases hfind : (pyRange (width / 10) (width - width / 10 - max 10 (width / 20))).find?
        (fun x => decide (edgeWindowScoreT width edgeRows x = m)) with
    | none => rfl
    | some y => rfl

/-- Elements rejected by `qualifiesPiece` leave the Stage A selection
state unchanged. -/
theorem stageA_step_skip :
    ∀ (b : ℚ × Option ℕ) (c : Contour), qualifiesPiece c = false →
      (if c.area > 200 then
        if 0.5 < pieceAspect c ∧ pieceAspect c < 2.0 ∧ c.area > b.1 then
          (c.area, some (c.x + c.w / 2))
        else b
      else b) = b := by
  intro b c hq
  by_cases h1 : (200 : ℚ) < c.area
  · by_cases h2 : (0.5 : ℚ) < pieceAspect c
    · by_cases h3 : pieceAspect c < 2.0
      · exfalso
        simp [qualifiesPiece, h1, h2, h3] at hq
      · rw [if_pos h1, if_neg (by tauto)]
    · rw [if_pos h1, if_neg (by tauto)]
  · rw [if_neg h1]

/-- The Stage A selection is the maximum-tracking scan over the qualifying
contours. -/
theorem selectPiece_char (contours : List Contour) :
    selectPuzzlePieceX contours =
      (match listMaxQ ((contours.filter qualifiesPiece).map (·.area)) with
        | none => none
        | some bestArea =>
          match (contours.filter qualifiesPiece).find? fun c => decide (c.area = bestArea) with
          | some c => some (c.x + c.w / 2)
          | none => none) := by
  have hstep : selectPuzzlePieceX contours =
      ((contours.filter qualifiesPiece).foldl
        (scanStep qgt (fun c => some c.area) (fun c => some (c.x + c.w / 2)))
        (0, none)).2 := by
    unfold selectPuzzlePieceX
    rw [foldl_skip_filter stageA_step_skip]
    congr 1
    apply foldl_congr_mem
    intro c hc b
    have hq : qualifiesPiece c = true := List.of_mem_filter hc
    simp only [qualifiesPiece, Bool.and_eq_true, decide_eq_true_eq] at hq
    obtain ⟨⟨h1, h2⟩, h3⟩ := hq
    simp only [scanStep]
    rw [if_pos h1, if_congr (show (0.5 < pieceAspect c ∧ pieceAspect c < 2.0 ∧ c.area > b.1) ↔
      (c.area > b.1) from ⟨fun h => h.2.2, fun h => ⟨h2, h3, h⟩⟩) rfl rfl]
    simp only [qgt]
    by_cases h4 : b.1 < c.area
    · rw [if_pos h4, if_pos (by simpa using h4)]
    · rw [if_neg h4, if_neg (by simpa using h4)]
  rw [hstep, scan_char qgt_trans qgt_ntrans]
  simp only [firstBest_max]
  cases hmax : listMaxQ ((contours.filter qualifiesPiece).map fun c => c.area) with
  | none => rfl
  | some bestArea =>
    have hA : (200 : ℚ) < bestArea := by
      have hmem := listBestQ_mem max_choice hmax
      obtain ⟨c, hc, hca⟩ := List.mem_map.mp hmem
      have hq : qualifiesPiece c = true := List.of_mem_filter hc
      simp only [qualifiesPiece, Bool.and_eq_true, decide_eq_true_eq] at hq
      rw [← hca]
      exact hq.1.1
    simp only [Option.some_bind]
    cases hfind : (contours.filter qualifiesPiece).find? fun c => decide (c.area = bestArea) with
    | none => rfl
    | some c =>
      simp only [Option.map_some']
      have : qgt bestArea 0 = true := by
        simp only [qgt, decide_eq_true_eq]
        linarith
      rw [if_pos this]

/-- C6 (amended), proved: Stage A equals its specification with the open
aspect-ratio interval. -/
theorem stageA_eq_spec (width : ℕ) (contours : List Contour) :
    stageAGap width contours = stageASpec width contours := by
  simp only [stageAGap, stageASpec, selectPiece_char]
  cases listMaxQ ((contours.filter qualifiesPiece).map (·.area)) with
  | none => rfl
  | some bestArea =>
    dsimp only []
    cases (contours.filter qualifiesPiece).find? fun c => decide (c.area = bestArea) with
    | none => rfl
    | some c => rfl

theorem getLast?_cons_match {α : Type} (a : α) (l : List α) :
    (a :: l).getLast? = (match l.getLast? with | none => some a | some d => some d) := by
  induction l generalizing a with
  | nil => rfl
  | cons b bs ih =>
    rw [List.getLast?_cons_cons, ih b]
    cases bs.getLast? <;> rfl

theorem puzzleAndOthers_go :
    ∀ (cands : List Candidate) (po : Option ℤ) (l0 : List ℤ),
      cands.foldl
        (fun (acc : Option ℤ × List ℤ) c =>
          if c.method == .puzzleTemplate then (some c.pos, acc.2)
          else (acc.1, acc.2 ++ [c.pos])) (po, l0) =
      ((match (cands.filter fun c => c.method == .puzzleTemplate).getLast? with
          | none => po
          | some c => some c.pos),
        l0 ++ (cands.filter fun c => !(c.method == .puzzleTemplate)).map (·.pos)) := by
  intro cands
  induction cands with
  | nil => intro po l0; simp
  | cons c rest ih =>
    intro po l0
    by_cases hc : (c.method == .puzzleTemplate) = true
    · simp only [List.foldl_cons, hc, if_true, List.filter_cons, Bool.not_true,
        Bool.false_eq_true, if_false]
      rw [ih, getLast?_cons_match]
      cases (rest.filter fun c => c.method == .puzzleTemplate).getLast? <;> rfl
    · have hcf : (c.method == .puzzleTemplate) = false := by simpa using hc
      simp only [List.foldl_cons, hcf, Bool.false_eq_true, if_false, List.filter_cons,
        Bool.not_false, if_true]
      rw [ih]
      simp [List.append_assoc]

theorem puzzleAndOthers_eq (cands : List Candidate) :
    puzzleAndOthers cands = (specPuzzlePos cands, specOtherPositions cands) := by
  unfold puzzleAndOthers specPuzzlePos specOtherPositions
  rw [puzzleAndOthers_go]
  cases (cands.filter fun c => c.method == .puzzleTemplate).getLast? <;> simp

theorem weightedAccum_go (pw : ℚ) :
    ∀ (cands : List Candidate) (a b : ℚ) (l0 : List ℤ),
      cands.foldl
        (fun (acc : ℚ × ℚ × List ℤ) c =>
          (acc.1 + (c.pos : ℚ) * baseWeight pw c.method,
            acc.2.1 + baseWeight pw c.method,
            acc.2.2 ++ [c.pos])) (a, b, l0) =
      (a + (cands.map fun c => (c.pos : ℚ) * baseWeight pw c.method).sum,
        b + (cands.map fun c => baseWeight pw c.method).sum,
        l0 ++ cands.map (·.pos)) := by
  intro cands
  induction cands with
  | nil => intro a b l0; simp
  | cons c rest ih =>
    intro a b l0
    simp only [List.foldl_cons, List.map_cons, List.sum_cons]
    rw [ih]
    simp [add_assoc, List.append_assoc]

theorem weightedAccum_eq (pw : ℚ) (cands : List Candidate) :
    weightedAccum pw cands =
      ((cands.map fun c => (c.pos : ℚ) * baseWeight pw c.method).sum,
        (cands.map fun c => baseWeight pw c.method).sum,
        cands.map (·.pos)) := by
  unfold weightedAccum
  rw [weightedAccum_go]
  simp

theorem dynWeight_eq_spec (cands : List Candidate) :
    dynPuzzleWeight (puzzleAndOthers cands) = specPuzzleWeight cands := by
  rw [puzzleAndOthers_eq]
  simp only [dynPuzzleWeight, specPuzzleWeight]
  cases specPuzzlePos cands with
  | none => rfl
  | some p =>
    dsimp only
    by_cases h0 : specOtherPositions cands = []
    · simp [h0]
    · have h0b : (specOtherPositions cands).isEmpty = false := by
        simpa [List.isEmpty_iff] using h0
      simp [h0b, h0]

theorem specPuzzleWeight_ge_one (cands : List Candidate) :
    1 ≤ specPuzzleWeight cands := by
  unfold specPuzzleWeight
  cases specPuzzlePos cands with
  | none => norm_num
  | some p =>
    dsimp only
    split
    · norm_num
    · split
      · norm_num
      · split <;> norm_num

theorem baseWeight_ge_one {pw : ℚ} (hpw : 1 ≤ pw) (k : AnalyzerKind) :
    1 ≤ baseWeight pw k := by
  cases k <;> simp [baseWeight] <;> norm_num
  exact hpw

theorem totalWeight_pos (cands : List Candidate) (h : cands ≠ []) :
    0 < (cands.map fun c => baseWeight (specPuzzleWeight cands) c.method).sum := by
  apply List.sum_pos
  · intro x hx
    obtain ⟨c, _, rfl⟩ := List.mem_map.mp hx
    have := baseWeight_ge_one (specPuzzleWeight_ge_one cands) c.method
    linarith
  · simpa using h

/-- Without a verified anchor the fused distance is the truncated dynamic
weighted average, replaced by the truncated median when they differ by
more than 60 (shared helper behind C5). -/
theorem fuse_weighted_eq (width : ℕ) (cands : List Candidate)
    (h1 : cands ≠ []) (h2 : findVerifiedTemplate width cands = none) :
    (fuse width cands).1 = weightedVoteSpec cands := by
  have hne : cands.isEmpty = false := by simpa [List.isEmpty_iff] using h1
  have htw := totalWeight_pos cands h1
  simp only [fuse, hne, Bool.false_eq_true, if_false, h2]
  rw [dynWeight_eq_spec, weightedAccum_eq]
  dsimp only
  rw [if_pos htw]
  simp only [weightedVoteSpec, specWeightedAverage]
  by_cases hcond :
      |pyInt ((cands.map fun c => (c.pos : ℚ) * baseWeight (specPuzzleWeight cands) c.method).sum /
          (cands.map fun c => baseWeight (specPuzzleWeight cands) c.method).sum) -
        pyInt (npMedian (cands.map (·.pos)))| > 60
  · rw [if_pos hcond, if_pos hcond]
  · rw [if_neg hcond, if_neg hcond]

/-- Consistency fusion (shared helper behind C1): a verified in-band
anchor and a colour candidate within 20 px fuse as
`int(0.7·anchor + 0.3·colorPos)`. -/
theorem fuse_consistency_eq (width : ℕ) (cands : List Candidate) (tp cp : ℤ)
    (h1 : findVerifiedTemplate width cands = some tp)
    (h2 : findColorPos cands = some cp)
    (h3 : |tp - cp| ≤ 20) :
    (fuse width cands).1 = pyInt ((tp : ℚ) * 0.7 + (cp : ℚ) * 0.3) := by
  have hne : cands.isEmpty = false := by
    cases cands with
    | nil => simp [findVerifiedTemplate] at h1
    | cons a l => rfl
  simp only [fuse, hne, Bool.false_eq_true, if_false, h1, h2]
  rw [if_pos h3]

theorem mem_insertDesc {p q : ℕ × ℚ} :
    ∀ {l : List (ℕ × ℚ)}, p ∈ insertDesc q l ↔ p = q ∨ p ∈ l := by
  intro l
  induction l with
  | nil => simp [insertDesc]
  | cons r rs ih =>
    simp only [insertDesc]
    split
    · simp [List.mem_cons]
    · simp only [List.mem_cons, ih]
      tauto

theorem mem_sortDescBySnd {p : ℕ × ℚ} :
    ∀ {l : List (ℕ × ℚ)}, p ∈ sortDescBySnd l ↔ p ∈ l := by
  intro l
  induction l with
  | nil => simp [sortDescBySnd]
  | cons r rs ih => simp [sortDescBySnd, mem_insertDesc, ih]

/-- When Stage A fails and no Stage B window clears the score-30 bar, the
puzzle analyzer returns the conservative default `int(width*0.3)`
(shared helper behind C3). -/
theorem puzzle_low_score_default (width : ℕ) (contours : List Contour)
    (col_edges : List ℚ)
    (h1 : stageAGap width contours = none)
    (h2 : ∀ p ∈ stageBCandidates width col_edges, p.2 ≤ 30) :
    find_gap_with_puzzle_template_matching false width contours col_edges =
      pyInt ((width : ℚ) * 0.3) := by
  unfold find_gap_with_puzzle_template_matching
  rw [if_neg (by simp), h1]
  cases hh : (sortDescBySnd (stageBCandidates width col_edges)).head? with
  | none => rfl
  | some best =>
    have hmem : best ∈ sortDescBySnd (stageBCandidates width col_edges) :=
      List.mem_of_mem_head? (by simp [hh])
    have hmem2 : best ∈ stageBCandidates width col_edges := mem_sortDescBySnd.mp hmem
    have hle := h2 best hmem2
    dsimp only
    rw [if_neg (not_lt.mpr hle)]

theorem runAnalyzers_ne_nil (d : ImgData) : runAnalyzers d ≠ [] := by
  unfold runAnalyzers
  cases d.edgeCrashed <;> cases d.colorCrashed <;> simp

/-- The second component of a best-tracking fold is either the initial
output or the output of some scanned element. -/
theorem scanO_snd_cases {α β : Type} {better : ℚ → ℚ → Bool} {score : α → Option ℚ}
    {out : α → β} :
    ∀ (l : List α) (acc : Option ℚ × β),
      (l.foldl (scanStepO better score out) acc).2 = acc.2 ∨
        ∃ c ∈ l, (l.foldl (scanStepO better score out) acc).2 = out c := by
  intro l
  induction l with
  | nil => intro acc; left; rfl
  | cons x xs ih =>
    intro acc
    simp only [List.foldl_cons]
    have hstep : (scanStepO better score out acc x).2 = acc.2 ∨
        (scanStepO better score out acc x).2 = out x := by
      simp only [scanStepO]
      cases score x with
      | none => left; rfl
      | some s =>
        dsimp only
        split
        · right; rfl
        · left; rfl
    rcases ih (scanStepO better score out acc x) with h | ⟨c, hc, h⟩
    · rcases hstep with h2 | h2
      · left; rw [h, h2]
      · right; exact ⟨x, by simp, by rw [h, h2]⟩
    · right; exact ⟨c, by simp [hc], h⟩

theorem scan_snd_cases {α β : Type} {better : ℚ → ℚ → Bool} {score : α → Option ℚ}
    {out : α → β} :
    ∀ (l : List α) (acc : ℚ × β),
      (l.foldl (scanStep better score out) acc).2 = acc.2 ∨
        ∃ c ∈ l, (l.foldl (scanStep better score out) acc).2 = out c := by
  intro l
  induction l with
  | nil => intro acc; left; rfl
  | cons x xs ih =>
    intro acc
    simp only [List.foldl_cons]
    have hstep : (scanStep better score out acc x).2 = acc.2 ∨
        (scanStep better score out acc x).2 = out x := by
      simp only [scanStep]
      cases score x with
      | none => left; rfl
      | some s =>
        dsimp only
        split
        · right; rfl
        · left; rfl
    rcases ih (scanStep better score out acc x) with h | ⟨c, hc, h⟩
    · rcases hstep with h2 | h2
      · left; rw [h, h2]
      · right; exact ⟨x, by simp, by rw [h, h2]⟩
    · right; exact ⟨c, by simp [hc], h⟩

/-- The colour-analyzer loop is exactly a maximum-tracking scan over the
guarded window scores. -/
theorem color_fold_eq (std : List ℚ → ℚ) (width : ℕ) (col_diff : List ℚ) :
    find_gap_with_color_analysis std width col_diff =
      ((((pyRange (width / 8) (width - width / 8 - max 8 (width / 25))).foldl
        (scanStep qgt (colorWindowScore std width col_diff)
          (fun x => x + max 8 (width / 25) / 2))
        (-1, width / 4)).2 : ℕ) : ℤ) := by
  simp only [find_gap_with_color_analysis]
  congr 2
  apply foldl_congr_all
  intro b a
  by_cases h : (pySlice col_diff a (a + max 8 (width / 25))).length > 2
  · simp only [scanStep, colorWindowScore, qgt, if_pos h]
    by_cases h2 : b.1 < listMax (pySlice col_diff a (a + max 8 (width / 25))) +
        std (pySlice col_diff a (a + max 8 (width / 25))) * 0.3
    · rw [if_pos (by simpa using h2), if_pos (by simpa using h2)]
    · rw [if_neg (by simpa using h2), if_neg (by simpa using h2)]
  · simp only [scanStep, colorWindowScore, qgt, if_neg h]

theorem mem_insertAsc {x y : ℤ} :
    ∀ {l : List ℤ}, y ∈ insertAsc x l ↔ y = x ∨ y ∈ l := by
  intro l
  induction l with
  | nil => simp [insertAsc]
  | cons a as ih =>
    simp only [insertAsc]
    split
    · simp [List.mem_cons]
    · simp only [List.mem_cons, ih]
      tauto

theorem mem_sortAsc {y : ℤ} : ∀ {l : List ℤ}, y ∈ sortAsc l ↔ y ∈ l := by
  intro l
  induction l with
  | nil => simp [sortAsc]
  | cons a as ih => simp [sortAsc, mem_insertAsc, ih]

theorem length_insertAsc (x : ℤ) : ∀ l : List ℤ, (insertAsc x l).length = l.length + 1 := by
  intro l
  induction l with
  | nil => rfl
  | cons a as ih =>
    simp only [insertAsc]
    split
    · rfl
    · simp [ih]

theorem length_sortAsc : ∀ l : List ℤ, (sortAsc l).length = l.length := by
  intro l
  induction l with
  | nil => rfl
  | cons a as ih => simp [sortAsc, length_insertAsc, ih]

theorem getD_mem {α : Type} (d : α) :
    ∀ (l : List α) (i : ℕ), i < l.length → l.getD i d ∈ l := by
  intro l
  induction l with
  | nil => intro i h; simp at h
  | cons a as ih =>
    intro i h
    cases i with
    | zero => simp
    | succ n =>
      simp only [List.getD_cons_succ]
      exact List.mem_cons_of_mem _ (ih n (by simpa using h))

theorem npMedian_bounds {l : List ℤ} {M : ℤ} (hne : l ≠ [])
    (h : ∀ x ∈ l, 0 ≤ x ∧ x ≤ M) :
    0 ≤ npMedian l ∧ npMedian l ≤ (M : ℚ) := by
  have hlen : (sortAsc l).length = l.length := length_sortAsc l
  have hn0 : l.length ≠ 0 := by simpa [List.length_eq_zero] using hne
  have hb : ∀ i, i < (sortAsc l).length →
      0 ≤ (sortAsc l).getD i 0 ∧ (sortAsc l).getD i 0 ≤ M := by
    intro i hi
    exact h _ (mem_sortAsc.mp (getD_mem 0 (sortAsc l) i hi))
  unfold npMedian
  dsimp only
  rw [if_neg (by omega)]
  by_cases hodd : (sortAsc l).length % 2 = 1
  · rw [if_pos hodd]
    obtain ⟨ha, hb2⟩ := hb ((sortAsc l).length / 2) (by omega)
    constructor
    · exact_mod_cast ha
    · exact_mod_cast hb2
  · rw [if_neg hodd]
    obtain ⟨ha1, hb1⟩ := hb ((sortAsc l).length / 2 - 1) (by omega)
    obtain ⟨ha2, hb2⟩ := hb ((sortAsc l).length / 2) (by omega)
    have ha1q : (0 : ℚ) ≤ ((sortAsc l).getD ((sortAsc l).length / 2 - 1) 0 : ℤ) := by
      exact_mod_cast ha1
    have ha2q : (0 : ℚ) ≤ ((sortAsc l).getD ((sortAsc l).length / 2) 0 : ℤ) := by
      exact_mod_cast ha2
    have hb1q : (((sortAsc l).getD ((sortAsc l).length / 2 - 1) 0 : ℤ) : ℚ) ≤ (M : ℚ) := by
      exact_mod_cast hb1
    have hb2q : (((sortAsc l).getD ((sortAsc l).length / 2) 0 : ℤ) : ℚ) ≤ (M : ℚ) := by
      exact_mod_cast hb2
    constructor
    · linarith
    · rw [div_le_iff₀ (by norm_num : (0:ℚ) < 2)]
      linarith

theorem specWeightedAverage_bounds (cands : List Candidate) (M : ℤ)
    (h1 : cands ≠ []) (hpos : ∀ c ∈ cands, 0 ≤ c.pos ∧ c.pos ≤ M) :
    0 ≤ specWeightedAverage cands ∧ specWeightedAverage cands ≤ (M : ℚ) := by
  have htw := totalWeight_pos cands h1
  have hwt : ∀ c ∈ cands, (0 : ℚ) ≤ baseWeight (specPuzzleWeight cands) c.method := by
    intro c hc
    have := baseWeight_ge_one (specPuzzleWeight_ge_one cands) c.method
    linarith
  unfold specWeightedAverage
  constructor
  · apply div_nonneg _ htw.le
    apply List.sum_nonneg
    intro x hx
    obtain ⟨c, hc, rfl⟩ := List.mem_map.mp hx
    have h0 : (0 : ℚ) ≤ (c.pos : ℚ) := by exact_mod_cast (hpos c hc).1
    exact mul_nonneg h0 (hwt c hc)
  · rw [div_le_iff₀ htw]
    calc (cands.map fun c => (c.pos : ℚ) * baseWeight (specPuzzleWeight cands) c.method).sum
        ≤ (cands.map fun c => (M : ℚ) * baseWeight (specPuzzleWeight cands) c.method).sum := by
          apply List.sum_le_sum
          intro c hc
          have hM : (c.pos : ℚ) ≤ (M : ℚ) := by exact_mod_cast (hpos c hc).2
          exact mul_le_mul_of_nonneg_right hM (hwt c hc)
      _ = (M : ℚ) * (cands.map fun c => baseWeight (specPuzzleWeight cands) c.method).sum := by
          rw [← List.sum_map_mul_left]

theorem pyInt_blend_range (width : ℕ) (a c : ℤ) (q1 q2 : ℚ)
    (hq1 : 0 ≤ q1) (hq2 : 0 ≤ q2) (hs : q1 + q2 = 1)
    (ha0 : 0 ≤ a) (haW : a < (width : ℤ)) (hc0 : 0 ≤ c) (hcW : c < (width : ℤ)) :
    0 ≤ pyInt ((a : ℚ) * q1 + (c : ℚ) * q2) ∧
      pyInt ((a : ℚ) * q1 + (c : ℚ) * q2) < (width : ℤ) := by
  have ha0q : (0 : ℚ) ≤ (a : ℚ) := by exact_mod_cast ha0
  have hc0q : (0 : ℚ) ≤ (c : ℚ) := by exact_mod_cast hc0
  have haWq : (a : ℚ) ≤ (width : ℚ) - 1 := by
    have : a ≤ (width : ℤ) - 1 := by omega
    have h2 : (a : ℚ) ≤ (((width : ℤ) - 1 : ℤ) : ℚ) := by exact_mod_cast this
    push_cast at h2
    linarith
  have hcWq : (c : ℚ) ≤ (width : ℚ) - 1 := by
    have : c ≤ (width : ℤ) - 1 := by omega
    have h2 : (c : ℚ) ≤ (((width : ℤ) - 1 : ℤ) : ℚ) := by exact_mod_cast this
    push_cast at h2
    linarith
  have hq0 : 0 ≤ (a : ℚ) * q1 + (c : ℚ) * q2 :=
    add_nonneg (mul_nonneg ha0q hq1) (mul_nonneg hc0q hq2)
  have hqW : (a : ℚ) * q1 + (c : ℚ) * q2 < (width : ℚ) := by
    nlinarith [mul_le_mul_of_nonneg_right haWq hq1, mul_le_mul_of_nonneg_right hcWq hq2]
  refine ⟨pyInt_nonneg hq0, pyInt_lt_of_lt hq0 ?_⟩
  push_cast
  exact hqW

theorem pyInt_width_03_range (width : ℕ) (hw : 1 ≤ width) :
    0 ≤ pyInt ((width : ℚ) * 0.3) ∧ pyInt ((width : ℚ) * 0.3) < (width : ℤ) := by
  have h0 : (0 : ℚ) ≤ (width : ℚ) * 0.3 := by positivity
  refine ⟨pyInt_nonneg h0, pyInt_lt_of_lt h0 ?_⟩
  have h1 : (1 : ℚ) ≤ (width : ℚ) := by exact_mod_cast hw
  push_cast
  nlinarith

theorem edge_detection_range (width : ℕ) (edgeRows : List (List ℚ)) (hw : 1 ≤ width) :
    0 ≤ find_gap_with_edge_detection width edgeRows ∧
      find_gap_with_edge_detection width edgeRows < (width : ℤ) := by
  rw [edge_fold_eq]
  rcases @scanO_snd_cases ℕ ℕ qlt (edgeWindowScore width edgeRows)
      (fun x => x + max 10 (width / 20) / 2)
      (pyRange (width / 10) (width - width / 10 - max 10 (width / 20)))
      (none, width / 4) with h | ⟨c, hc, h⟩
  · rw [h]
    constructor
    · exact_mod_cast Nat.zero_le _
    · exact_mod_cast Nat.div_lt_self hw (by norm_num)
  · rw [h]
    obtain ⟨hx1, hx2⟩ := mem_pyRange.mp hc
    have hch : max 10 (width / 20) = 10 ∨ max 10 (width / 20) = width / 20 :=
      max_choice _ _
    have hlt : c + max 10 (width / 20) / 2 < width := by omega
    constructor
    · exact_mod_cast Nat.zero_le _
    · exact_mod_cast hlt

theorem color_analysis_range (std : List ℚ → ℚ) (width : ℕ) (col_diff : List ℚ)
    (hw : 1 ≤ width) :
    0 ≤ find_gap_with_color_analysis std width col_diff ∧
      find_gap_with_color_analysis std width col_diff < (width : ℤ) := by
  rw [color_fold_eq]
  rcases @scan_snd_cases ℕ ℕ qgt (colorWindowScore std width col_diff)
      (fun x => x + max 8 (width / 25) / 2)
      (pyRange (width / 8) (width - width / 8 - max 8 (width / 25)))
      (-1, width / 4) with h | ⟨c, hc, h⟩
  · rw [h]
    constructor
    · exact_mod_cast Nat.zero_le _
    · exact_mod_cast Nat.div_lt_self hw (by norm_num)
  · rw [h]
    obtain ⟨hx1, hx2⟩ := mem_pyRange.mp hc
    have hch : max 8 (width / 25) = 8 ∨ max 8 (width / 25) = width / 25 :=
      max_choice _ _
    have hlt : c + max 8 (width / 25) / 2 < width := by omega
    constructor
    · exact_mod_cast Nat.zero_le _
    · exact_mod_cast hlt

theorem stageAGap_bounds {width : ℕ} {contours : List Contour} {g : ℤ}
    (h : stageAGap width contours = some g) :
    20 < g ∧ g < (width : ℤ) - 20 := by
  unfold stageAGap at h
  cases hsel : selectPuzzlePieceX contours with
  | none => rw [hsel] at h; simp at h
  | some px =>
    rw [hsel] at h
    dsimp only at h
    by_cases hc : 20 < inferGapFromPiece width px ∧
        inferGapFromPiece width px < (width : ℤ) - 20
    · rw [if_pos hc] at h
      cases h
      exact hc
    · rw [if_neg hc] at h
      cases h

theorem puzzle_matching_range (crashed : Bool) (width : ℕ) (contours : List Contour)
    (col_edges : List ℚ) (hw : 1 ≤ width) :
    0 ≤ find_gap_with_puzzle_template_matching crashed width contours col_edges ∧
      find_gap_with_puzzle_template_matching crashed width contours col_edges <
        (width : ℤ) := by
  have hdef := pyInt_width_03_range width hw
  unfold find_gap_with_puzzle_template_matching
  cases crashed with
  | true => simpa using hdef
  | false =>
    rw [if_neg (by simp)]
    cases hA : stageAGap width contours with
    | some g =>
      dsimp only
      obtain ⟨h1, h2⟩ := stageAGap_bounds hA
      omega
    | none =>
      dsimp only
      cases hh : (sortDescBySnd (stageBCandidates width col_edges)).head? with
      | none => exact hdef
      | some best =>
        dsimp only
        by_cases hs : best.2 > 30
        · rw [if_pos hs]
          have hmem : best ∈ stageBCandidates width col_edges :=
            mem_sortDescBySnd.mp (List.mem_of_mem_head? (by simp [hh]))
          simp only [stageBCandidates] at hmem
          obtain ⟨x, hx, hxe⟩ := List.mem_map.mp hmem
          obtain ⟨hx1, hx2⟩ := mem_pyRange.mp hx
          have hb1 : best.1 = x := by rw [← hxe]
          have hch : max 20 (width / 20) = 20 ∨ max 20 (width / 20) = width / 20 :=
            max_choice _ _
          have hxw : x < width := by omega
          rw [hb1]
          constructor
          · exact_mod_cast Nat.zero_le _
          · exact_mod_cast hxw
        · rw [if_neg hs]
          exact hdef

theorem runAnalyzers_pos_range (d : ImgData) (hw : 1 ≤ d.width) :
    ∀ c ∈ runAnalyzers d, 0 ≤ c.pos ∧ c.pos < (d.width : ℤ) := by
  intro c hc
  have hE := edge_detection_range d.width d.edgeRows hw
  have hC := color_analysis_range d.stdFn d.width d.colorProfile hw
  have hP := puzzle_matching_range d.puzzleCrashed d.width d.contours d.puzzleEdges hw
  unfold runAnalyzers at hc
  rcases List.mem_append.mp hc with hc1 | hc2
  · rcases List.mem_append.mp hc1 with hca | hcb
    · by_cases he : d.edgeCrashed = true
      · rw [if_pos he] at hca
        simp at hca
      · rw [if_neg he] at hca
        have := List.mem_singleton.mp hca
        subst this
        simpa using hE
    · by_cases hcl : d.colorCrashed = true
      · rw [if_pos hcl] at hcb
        simp at hcb
      · rw [if_neg hcl] at hcb
        have := List.mem_singleton.mp hcb
        subst this
        simpa using hC
  · have := List.mem_singleton.mp hc2
    subst this
    simpa using hP

/-- Positions selected by `find?`-style lookups are candidate positions. -/
theorem findVerifiedTemplate_pos_mem {width : ℕ} {cands : List Candidate} {tp : ℤ}
    (h : findVerifiedTemplate width cands = some tp) :
    ∃ c ∈ cands, c.pos = tp := by
  unfold findVerifiedTemplate at h
  obtain ⟨c, hf, hcp⟩ := Option.map_eq_some'.mp h
  exact ⟨c, List.mem_of_find?_eq_some hf, hcp⟩

theorem findColorPos_pos_mem {cands : List Candidate} {cp : ℤ}
    (h : findColorPos cands = some cp) :
    ∃ c ∈ cands, c.pos = cp := by
  unfold findColorPos at h
  obtain ⟨c, hf, hcp⟩ := Option.map_eq_some'.mp h
  exact ⟨c, List.mem_of_find?_eq_some hf, hcp⟩

/-- The fused distance stays inside `[0, width)` whenever all candidate
positions do (shared helper behind C4). -/
theorem fuse_range (width : ℕ) (cands : List Candidate) (hw : 1 ≤ width)
    (hpos : ∀ c ∈ cands, 0 ≤ c.pos ∧ c.pos < (width : ℤ)) :
    0 ≤ (fuse width cands).1 ∧ (fuse width cands).1 < (width : ℤ) := by
  by_cases hemp : cands.isEmpty = true
  · simp only [fuse, hemp, if_true]
    exact pyInt_width_03_range width hw
  · have hef : cands.isEmpty = false := by simpa using hemp
    have hne : cands ≠ [] := by
      intro hE
      subst hE
      simp at hef
    simp only [fuse, hef, Bool.false_eq_true, if_false]
    cases hvt : findVerifiedTemplate width cands with
    | some tp =>
      obtain ⟨ct, hct, hctp⟩ := findVerifiedTemplate_pos_mem hvt
      have htp : 0 ≤ tp ∧ tp < (width : ℤ) := hctp ▸ hpos ct hct
      dsimp only
      cases hcp : findColorPos cands with
      | none => exact htp
      | some cp =>
        obtain ⟨cc, hcc, hccp⟩ := findColorPos_pos_mem hcp
        have hcpb : 0 ≤ cp ∧ cp < (width : ℤ) := hccp ▸ hpos cc hcc
        dsimp only
        split
        · exact pyInt_blend_range width tp cp 0.7 0.3 (by norm_num) (by norm_num)
            (by norm_num) htp.1 htp.2 hcpb.1 hcpb.2
        · split
          · exact pyInt_blend_range width tp cp 0.5 0.5 (by norm_num) (by norm_num)
              (by norm_num) htp.1 htp.2 hcpb.1 hcpb.2
          · split
            · exact pyInt_blend_range width tp cp 0.8 0.2 (by norm_num) (by norm_num)
                (by norm_num) htp.1 htp.2 hcpb.1 hcpb.2
            · exact pyInt_blend_range width tp cp 0.2 0.8 (by norm_num) (by norm_num)
                (by norm_num) htp.1 htp.2 hcpb.1 hcpb.2
    | none =>
      dsimp only
      rw [dynWeight_eq_spec, weightedAccum_eq]
      dsimp only
      have htw := totalWeight_pos cands hne
      rw [if_pos htw]
      have hM : ∀ c ∈ cands, 0 ≤ c.pos ∧ c.pos ≤ (width : ℤ) - 1 := by
        intro c hc
        have := hpos c hc
        omega
      have hmapne : cands.map (·.pos) ≠ [] := by simpa using hne
      have hmapb : ∀ x ∈ cands.map (·.pos), 0 ≤ x ∧ x ≤ (width : ℤ) - 1 := by
        intro x hx
        obtain ⟨c, hc, rfl⟩ := List.mem_map.mp hx
        exact hM c hc
      have hmed := npMedian_bounds hmapne hmapb
      have hwav := specWeightedAverage_bounds cands ((width : ℤ) - 1) hne hM
      have hcast : (((width : ℤ) - 1 : ℤ) : ℚ) = (width : ℚ) - 1 := by push_cast; ring
      have hmed2 : 0 ≤ pyInt (npMedian (cands.map (·.pos))) ∧
          pyInt (npMedian (cands.map (·.pos))) ≤ (width : ℤ) - 1 := by
        refine ⟨pyInt_nonneg hmed.1, pyInt_le_of_le hmed.1 ?_⟩
        rw [hcast] at hmed
        rw [hcast]
        exact hmed.2
      have hwav2 : 0 ≤ pyInt (specWeightedAverage cands) ∧
          pyInt (specWeightedAverage cands) ≤ (width : ℤ) - 1 := by
        refine ⟨pyInt_nonneg hwav.1, pyInt_le_of_le hwav.1 ?_⟩
        rw [hcast] at hwav
        rw [hcast]
        exact hwav.2
      unfold specWeightedAverage at hwav2
      split
      · exact ⟨hmed2.1, by omega⟩
      · exact ⟨hwav2.1, by omega⟩

/-! ### Claim theorems -/

set_option maxRecDepth 40000

/-- C1 (counterexample to the claim as stated): with a verified anchor at
200 and a colour candidate at 211 (difference 11 ≤ 20), the code returns
203, while `0.7·200 + 0.3·211 = 203.3`; the final distance does not equal
the exact blend, only its truncation. -/
theorem c1_exact_formula_cex :
    findVerifiedTemplate 300 [⟨.puzzleTemplate, 200, true⟩, ⟨.colorAnalysis, 211, false⟩]
      = some 200 ∧
    findColorPos [⟨.puzzleTemplate, 200, true⟩, ⟨.colorAnalysis, 211, false⟩] = some 211 ∧
    |(200 : ℤ) - 211| ≤ 20 ∧
    (fuse 300 [⟨.puzzleTemplate, 200, true⟩, ⟨.colorAnalysis, 211, false⟩]).1 = 203 ∧
    ((fuse 300 [⟨.puzzleTemplate, 200, true⟩, ⟨.colorAnalysis, 211, false⟩]).1 : ℚ) ≠
      (200 : ℚ) * 0.7 + (211 : ℚ) * 0.3 := by
  with_unfolding_all decide

/-- C1 (amended), proved: whenever the anchor scan selects a verified
template position in `(0.1·width, 0.9·width)` and a colour candidate
exists with `|anchor − colorPos| ≤ 20`, the fused distance is
`int(0.7·anchor + 0.3·colorPos)` (the truncation of the blend). -/
theorem c1_verified_anchor_fusion (width : ℕ) (cands : List Candidate) (tp cp : ℤ)
    (h1 : findVerifiedTemplate width cands = some tp)
    (h2 : findColorPos cands = some cp)
    (h3 : |tp - cp| ≤ 20) :
    (fuse width cands).1 = pyInt ((tp : ℚ) * 0.7 + (cp : ℚ) * 0.3) :=
  fuse_consistency_eq width cands tp cp h1 h2 h3

/-- C1 witness: the claim's own instance — verified anchor 200 and colour
candidate 210 fuse to 203. -/
theorem c1_verified_anchor_fusion_witness :
    findVerifiedTemplate 300 [⟨.puzzleTemplate, 200, true⟩, ⟨.colorAnalysis, 210, false⟩]
      = some 200 ∧
    findColorPos [⟨.puzzleTemplate, 200, true⟩, ⟨.colorAnalysis, 210, false⟩] = some 210 ∧
    |(200 : ℤ) - 210| ≤ 20 ∧
    (fuse 300 [⟨.puzzleTemplate, 200, true⟩, ⟨.colorAnalysis, 210, false⟩]).1 = 203 := by
  refine ⟨by with_unfolding_all decide, by with_unfolding_all decide,
    by with_unfolding_all decide, ?_⟩
  rw [c1_verified_anchor_fusion 300
    [⟨.puzzleTemplate, 200, true⟩, ⟨.colorAnalysis, 210, false⟩] 200 210
    (by with_unfolding_all decide) (by with_unfolding_all decide)
    (by with_unfolding_all decide)]
  with_unfolding_all decide

/-- C2 (counterexample to the claim as stated): at width 12 the
zero-candidate fallback is `int(0.3·12) = 3`, not `round(0.3·12) = 4`. -/
theorem c2_round_cex :
    (fuse 12 ([] : List Candidate)).1 = 3 ∧ round ((0.3 : ℚ) * 12) = 4 := by
  with_unfolding_all decide

/-- C2 (amended), proved: with zero candidates the engine returns the
deterministic fallback `int(0.3 × width)` — truncation, not rounding. -/
theorem c2_zero_candidate_fallback (width : ℕ) :
    fuse width [] = (pyInt ((width : ℚ) * 0.3), .noCandidates) := by
  simp [fuse]

/-- C3 (counterexample to the claim as stated): on a 60-px profile
alternating 0/200 no Stage B window scores above 30, yet the analyzer
does not report failure — it returns `int(0.3·60) = 18` and that position
is handed to fusion as an (unverified) candidate. -/
theorem c3_reports_failure_cex :
    (∀ p ∈ stageBCandidates 60 altProfile, p.2 ≤ 30) ∧
    find_gap_with_puzzle_template_matching false 60 [] altProfile = 18 ∧
    (⟨.puzzleTemplate, 18, false⟩ : Candidate) ∈ runAnalyzers imgC3 := by
  refine ⟨by with_unfolding_all decide, by with_unfolding_all decide,
    by with_unfolding_all decide⟩

/-- C3 (amended), proved: when Stage A fails and no Stage B window scores
strictly above 30, the analyzer returns the conservative default
`int(width·0.3)`, which is contributed to fusion as an unverified
candidate (it is not excluded). -/
theorem c3_low_score_default_candidate (d : ImgData)
    (h0 : d.puzzleCrashed = false)
    (h1 : stageAGap d.width d.contours = none)
    (h2 : ∀ p ∈ stageBCandidates d.width d.puzzleEdges, p.2 ≤ 30) :
    (⟨.puzzleTemplate, pyInt ((d.width : ℚ) * 0.3), false⟩ : Candidate) ∈
      runAnalyzers d := by
  have hres : find_gap_with_puzzle_template_matching d.puzzleCrashed d.width
      d.contours d.puzzleEdges = pyInt ((d.width : ℚ) * 0.3) := by
    rw [h0]
    exact puzzle_low_score_default d.width d.contours d.puzzleEdges h1 h2
  unfold runAnalyzers
  rw [hres]
  simp

/-- C3 witness: the concrete 60-px image. -/
theorem c3_low_score_default_candidate_witness :
    imgC3.puzzleCrashed = false ∧
    stageAGap imgC3.width imgC3.contours = none ∧
    (∀ p ∈ stageBCandidates imgC3.width imgC3.puzzleEdges, p.2 ≤ 30) ∧
    (⟨.puzzleTemplate, pyInt ((imgC3.width : ℚ) * 0.3), false⟩ : Candidate) ∈
      runAnalyzers imgC3 :=
  ⟨rfl, by with_unfolding_all decide, by with_unfolding_all decide,
    c3_low_score_default_candidate imgC3 rfl (by with_unfolding_all decide)
      (by with_unfolding_all decide)⟩

/-- C4, proved: for every decoded image of positive width, the distance
produced by the multi-analyzer core lies in `[0, width)`. -/
theorem c4_distance_in_range (d : ImgData) (hw : 1 ≤ d.width) :
    0 ≤ (detectGapCore d).1 ∧ (detectGapCore d).1 < (d.width : ℤ) := by
  unfold detectGapCore
  exact fuse_range d.width (runAnalyzers d) hw (runAnalyzers_pos_range d hw)

/-- C4 witness: the concrete 30-px image. -/
theorem c4_distance_in_range_witness :
    1 ≤ imgC4.width ∧
      (0 ≤ (detectGapCore imgC4).1 ∧ (detectGapCore imgC4).1 < (imgC4.width : ℤ)) :=
  ⟨by with_unfolding_all decide, c4_distance_in_range imgC4 (by with_unfolding_all decide)⟩

/-- C5 (counterexample to the claim as stated): candidates EdgeDensity 100
and ColorContrast 103 give the exact weighted average
`(100·2 + 103·2.5)/4.5 = 101.66…`, but the code returns 101 — the
truncation, not the weighted average itself. -/
theorem c5_exact_average_cex :
    ([⟨.edgeDetection, 100, false⟩, ⟨.colorAnalysis, 103, false⟩] : List Candidate) ≠ [] ∧
    findVerifiedTemplate 200 [⟨.edgeDetection, 100, false⟩, ⟨.colorAnalysis, 103, false⟩]
      = none ∧
    fuse 200 [⟨.edgeDetection, 100, false⟩, ⟨.colorAnalysis, 103, false⟩]
      = (101, .weightedAverage) ∧
    specWeightedAverage [⟨.edgeDetection, 100, false⟩, ⟨.colorAnalysis, 103, false⟩]
      ≠ 101 := by
  refine ⟨by with_unfolding_all decide, by with_unfolding_all decide,
    by with_unfolding_all decide, by with_unfolding_all decide⟩

/-- C5 (amended), proved: without a verified anchor and with at least one
candidate, the distance is the truncated weighted average under the base
weights (EdgeDensity 2.0, ColorContrast 2.5, ContourFallback 1.2,
PuzzlePiece dynamic 3.0 / 1.8 / 1.0), replaced by the truncated median
when the two truncations differ by more than 60. -/
theorem c5_weighted_vote (width : ℕ) (cands : List Candidate)
    (h1 : cands ≠ []) (h2 : findVerifiedTemplate width cands = none) :
    (fuse width cands).1 = weightedVoteSpec cands :=
  fuse_weighted_eq width cands h1 h2

/-- C5 witness: the two-candidate instance evaluates to 101. -/
theorem c5_weighted_vote_witness :
    ([⟨.edgeDetection, 100, false⟩, ⟨.colorAnalysis, 103, false⟩] : List Candidate) ≠ [] ∧
    findVerifiedTemplate 200 [⟨.edgeDetection, 100, false⟩, ⟨.colorAnalysis, 103, false⟩]
      = none ∧
    (fuse 200 [⟨.edgeDetection, 100, false⟩, ⟨.colorAnalysis, 103, false⟩]).1 = 101 := by
  refine ⟨by with_unfolding_all decide, by with_unfolding_all decide, ?_⟩
  rw [c5_weighted_vote 200 [⟨.edgeDetection, 100, false⟩, ⟨.colorAnalysis, 103, false⟩]
    (by with_unfolding_all decide) (by with_unfolding_all decide)]
  with_unfolding_all decide

/-- C6 (counterexample to the claim as stated): a 20×10 contour of area
300 has aspect ratio exactly 2.0; under the claim's closed interval
`[0.5, 2.0]` it qualifies and Stage A would infer gap 76, but the code's
strict `0.5 < w/h < 2.0` rejects it and Stage A fails. -/
theorem c6_closed_interval_cex :
    (200 : ℚ) < contourC6.area ∧
    pieceAspect contourC6 = 2 ∧
    stageAGapClaimed 100 [contourC6] = some 76 ∧
    stageAGap 100 [contourC6] = none := by
  refine ⟨by with_unfolding_all decide, by with_unfolding_all decide,
    by with_unfolding_all decide, by with_unfolding_all decide⟩

/-- C6 (amended), proved: Stage A selects, among contours with area above
200 px² and aspect ratio strictly between 0.5 and 2.0, the first contour
of maximal area, takes its horizontal centre, infers the gap positionally
and accepts it only strictly inside `(20, width−20)`. -/
theorem c6_stage_a_selection (width : ℕ) (contours : List Contour) :
    stageAGap width contours = stageASpec width contours :=
  stageA_eq_spec width contours

/-- C7, proved: only a failed image decode produces an error; for every
decoded image — whatever analyzers raised internally — the core returns a
distance, never an error. -/
theorem c7_decode_error_only :
    (∀ d, detectGap (some d) = .ok (detectGapCore d)) ∧
      (∀ o, detectGap o = .error .decodeError ↔ o = none) := by
  constructor
  · intro d
    rfl
  · intro o
    cases o with
    | none => simp [detectGap]
    | some d => simp [detectGap]

/-- C8 (counterexample to the claim as stated): on an image where both the
edge and the colour analyzer failed, the candidate list handed to fusion
is just the template candidate — the ContourFallback analyzer still does
not participate (its function is never invoked). -/
theorem c8_contour_participation_cex :
    imgC8.edgeCrashed = true ∧ imgC8.colorCrashed = true ∧
    runAnalyzers imgC8 = [⟨.puzzleTemplate, 0, false⟩] := by
  refine ⟨rfl, rfl, by with_unfolding_all decide⟩

/-- C8 (amended), proved: no candidate of kind ContourFallback ever
reaches fusion, regardless of which analyzers failed —
`find_gap_with_contour_fallback` is defined but never called. -/
theorem c8_contour_never_used :
    ∀ d : ImgData,
      (runAnalyzers d).all (fun c => !(c.method == .contourAnalysis)) = true := by
  intro d
  unfold runAnalyzers
  cases d.edgeCrashed <;> cases d.colorCrashed <;> simp <;> decide

/-- C9, proved: the edge-density analyzer computes per-column sums over
the full height, slides a `max(10, width/20)` window over
`[width/10, width − width/10)`, scores `mean − 0.5·variance`, and returns
the centre of the first (lowest-x) window attaining the minimum score. -/
theorem c9_edge_scan_spec (width : ℕ) (edgeRows : List (List ℚ)) :
    find_gap_with_edge_detection width edgeRows = edgeSpecResult width edgeRows :=
  edge_scan_eq_spec width edgeRows

/-- C10, proved: the puzzle analyzer is total — an internal exception
yields `int(width·0.3)` — so the candidate list is never empty and the
zero-candidate fallback branch of the decision procedure is dead. -/
theorem c10_puzzle_total_nonempty :
    (∀ (width : ℕ) (contours : List Contour) (col_edges : List ℚ),
        find_gap_with_puzzle_template_matching true width contours col_edges =
          pyInt ((width : ℚ) * 0.3)) ∧
      (∀ d : ImgData, (detectGapCore d).2 ≠ .noCandidates) := by
  constructor
  · intro w cs es
    rfl
  · intro d
    have hne : (runAnalyzers d).isEmpty = false := by
      have := runAnalyzers_ne_nil d
      cases h : runAnalyzers d with
      | nil => exact absurd h this
      | cons a l => rfl
    unfold detectGapCore
    simp only [fuse, hne, Bool.false_eq_true, if_false]
    cases findVerifiedTemplate d.width (runAnalyzers d) with
    | none =>
      dsimp only
      split
      · split <;> simp
      · split <;> simp
    | some tp =>
      dsimp only
      cases findColorPos (runAnalyzers d) with
      | none => simp
      | some cp =>
        dsimp only
        split
        · simp
        · split
          · simp
          · split <;> simp
